import Mathlib

/-!
Shallow embedding of the crawl engine of the `pdf_url_scraping` repository.

URLs and text are modelled as lists of characters (`Url := List Char`).
The pure utility functions are translated from `src/utils.py` and
`src/src2/src/utils.py` (the two copies of `normalize_url` and
`is_valid_url` are character-for-character identical).  The ledger
(`URLStorage`, TinyDB-backed) and the text sink (`TextStorage`) are
translated from `src/src2/src/storage.py`, and the crawl engine from
`src/src2/src/crawler.py` (`WebCrawler.crawl`, `_process_url`,
`_process_html`, `_process_pdf`, `url_starts_with_base`).

External collaborators (`HTMLScraper.scrape_with_links`,
`PDFExtractor.extract`, the optional `url_filter` callable) are passed in
as an explicit environment; `scrape_with_links` already catches every
network/parse exception internally and returns `None` (`src/src/scraper.py`),
so an `Option`-returning function is a faithful model of it.  Each call to
a fetching collaborator is recorded, together with the depth of the
frontier entry being processed, in an instrumentation field `fetch_log`;
this field corresponds to the sequence of HTTP requests the crawler issues
and does not influence control flow.  The wall-clock timestamp and the
free-text error message stored by `mark_as_processed` are not modelled
(they are never read back by the engine).
-/

namespace PdfUrlScraping

/-- URLs (and extracted text) are strings, modelled as lists of characters. -/
abbrev Url := List Char

/-- Convert a Lean string literal to the `Url` model. -/
def str (s : String) : Url := s.data

/-- `urllib.parse.urldefrag(url)[0]`: everything before the first `'#'`
(for a fragmentless URL, the URL itself). -/
def urldefrag (u : Url) : Url := u.takeWhile (fun c => c ≠ '#')

/-- Python `url.rstrip('/')`: remove every trailing `'/'`. -/
def rstripSlash (u : Url) : Url := List.rdropWhile (fun c => c == '/') u

/-- `normalize_url` from `src/utils.py` / `src/src2/src/utils.py`:
`url, _ = urldefrag(url); url = url.rstrip('/')`. -/
def normalize_url (u : Url) : Url := rstripSlash (urldefrag u)

/-- Python `s.startswith(p)`. -/
def startsWith (u p : Url) : Bool := p.isPrefixOf u

/-- Python `s.endswith(e)`, via the reversed lists. -/
def endsWith (u e : Url) : Bool := e.reverse.isPrefixOf u.reverse

/-- Python `s.lower()` (the URLs involved are ASCII). -/
def lowerUrl (u : Url) : Url := u.map Char.toLower

/-- The characters Python's `str.strip()` removes. -/
def isPySpace (c : Char) : Bool :=
  c = ' ' || c = '\t' || c = '\n' || c = '\r' || c = '\x0b' || c = '\x0c'

/-- Python `text.strip()`. -/
def pyStrip (t : Url) : Url :=
  ((t.dropWhile isPySpace).reverse.dropWhile isPySpace).reverse

/-- `IGNORED_EXTENSIONS` from `src/config/settings.py`.  Note `.pdf` is
absent. -/
def IGNORED_EXTENSIONS : List Url :=
  [str ".jpg", str ".jpeg", str ".png", str ".gif", str ".svg", str ".ico",
   str ".css", str ".js", str ".woff", str ".woff2", str ".ttf", str ".eot",
   str ".mp4", str ".avi", str ".mov", str ".mp3", str ".wav",
   str ".zip", str ".tar", str ".gz", str ".rar"]

/-- The suffix `".pdf"`. -/
def pdfExt : Url := str ".pdf"

/-- Characters allowed in a URI scheme after the first letter
(`urllib.parse.scheme_chars`). -/
def isSchemeChar (c : Char) : Bool :=
  c.isAlphanum || c = '+' || c = '-' || c = '.'

/-- Strip a leading `"scheme:"` as `urllib.parse.urlsplit` does: the part
before the first `':'` must be nonempty, start with a letter and consist
of scheme characters. -/
def dropScheme (u : Url) : Url :=
  let pre := u.takeWhile (fun c => c ≠ ':')
  if pre.length < u.length && !pre.isEmpty &&
     (pre.headD ' ').isAlpha && pre.all isSchemeChar
  then u.drop (pre.length + 1) else u

/-- The `path` component as computed by `urllib.parse.urlparse(url).path`:
after the scheme, skip a `"//netloc"` part (terminated by `'/'`, `'?'` or
`'#'`), then take everything up to the query or fragment.  (The rarely
used `;parameters` split of `urlparse` is not modelled; none of the
ignored extensions contains `';'`.) -/
def urlparse_path (u : Url) : Url :=
  let r := dropScheme u
  let r := if r.take 2 = str "//"
           then (r.drop 2).dropWhile (fun c => c ≠ '/' && c ≠ '?' && c ≠ '#')
           else r
  r.takeWhile (fun c => c ≠ '?' && c ≠ '#')

/-- The generic ignored-extension test inside `is_valid_url`:
`any(path.endswith(ext) for ext in ignored_extensions)`, applied to the
already lower-cased path. -/
def has_ignored_extension (path : Url) (ignored : List Url) : Bool :=
  ignored.any (fun ext => endsWith path ext)

/-- `is_valid_url` from `src/utils.py` / `src/src2/src/utils.py`. -/
def is_valid_url (url : Url) (ignored : List Url) : Bool :=
  if url.isEmpty || !(startsWith url (str "http://") || startsWith url (str "https://"))
  then false
  else if has_ignored_extension (lowerUrl (urlparse_path url)) ignored then false
  else true

/-- `url_starts_with_base` from `src/src2/src/crawler.py`. -/
def url_starts_with_base (url base_url : Url) : Bool :=
  startsWith (normalize_url url) (normalize_url base_url)

/-- The spec's own description of the normalizer, used only to compare the
spec against the code: "Removes URI fragment; strips exactly one trailing
'/' if present".  Modelled from the spec, not from the source. -/
def normalize_url_one_slash (u : Url) : Url :=
  let d := urldefrag u
  if d.getLast? = some '/' then d.dropLast else d

/-- `extract_links_from_text` from `src/utils.py` / `src/src2/src/utils.py`.
The BeautifulSoup href harvest and `urllib.parse.urljoin` are external
collaborators: the hrefs found in the HTML are given as a list, and
`urljoin` as a function.  The repository's own code is the final
`normalize_url(urljoin(base_url, href))` applied to each href (the Python
`set` is modelled as a list; only membership matters). -/
def extract_links_from_text (urljoin : Url → Url → Url) (hrefs : List Url)
    (base_url : Url) : List Url :=
  hrefs.map (fun href => normalize_url (urljoin base_url href))

/-- Ledger statuses that `mark_as_processed` is called with. -/
inductive Status where
  | success | empty | error | skipped | failed
deriving DecidableEq, Repr

/-- Content types recorded in the ledger. -/
inductive CType where
  | html | pdf | other
deriving DecidableEq, Repr

/-- One ledger record (`URLStorage` row; timestamp and error message not
modelled). -/
structure UrlRecord where
  url : Url
  status : Status
  content_type : CType
deriving DecidableEq, Repr

/-- `URLStorage.is_processed`: any row whose `url` field equals `url`. -/
def is_processed (ledger : List UrlRecord) (url : Url) : Bool :=
  ledger.any (fun r => r.url = url)

/-- `URLStorage.mark_as_processed`: upsert by `url` (TinyDB `update` on all
matching rows, else `insert`). -/
def mark_as_processed (ledger : List UrlRecord) (url : Url)
    (status : Status) (content_type : CType) : List UrlRecord :=
  if is_processed ledger url
  then ledger.map (fun r => if r.url = url then ⟨url, status, content_type⟩ else r)
  else ledger ++ [⟨url, status, content_type⟩]

/-- `WebCrawler._count_processed_by_type`: rows with the given
`content_type` and status `success`. -/
def count_processed_by_type (ledger : List UrlRecord) (ct : CType) : Nat :=
  (ledger.filter (fun r => r.content_type = ct && r.status = Status.success)).length

/-- One record appended by `TextStorage.append_text`. -/
structure SinkEntry where
  url : Url
  text : Url
  content_type : CType
deriving DecidableEq, Repr

/-- `TextStorage.append_text`: no-op on empty/whitespace-only text, else
append. -/
def append_text (sink : List SinkEntry) (url text : Url) (ct : CType) :
    List SinkEntry :=
  if text.isEmpty || (pyStrip text).isEmpty then sink
  else sink ++ [⟨url, text, ct⟩]

/-- External collaborators of `WebCrawler` (src2 variant):
`scrape_with_links` returns the page text and harvested links, or `none`
on any fetch/parse failure (the scraper catches every exception
internally); `pdf_extract` is `PDFExtractor.extract`; `url_filter` is the
optional callable accepted by `crawl`. -/
structure Env where
  scrape_with_links : Url → Option (Url × List Url)
  pdf_extract : Url → Option Url
  url_filter : Option (Url → Bool)

/-- `url_filter(x) if url_filter else True`. -/
def applyFilter (f : Option (Url → Bool)) (u : Url) : Bool :=
  match f with
  | some g => g u
  | none => true

/-- Python `x in visited` on the per-run visited set (modelled as a list;
additions are appends, membership is what matters). -/
def memUrl (u : Url) (visited : List Url) : Bool := decide (u ∈ visited)

/-- The mutable state of one `WebCrawler.crawl` invocation: the frontier
deque, the per-run `visited` set, the ledger and text sink, the two
cumulative success counters, and the instrumentation log of collaborator
fetch calls `(url, depth of the frontier entry being processed)`. -/
structure CrawlState where
  queue : List (Url × Nat)
  visited : List Url
  ledger : List UrlRecord
  sink : List SinkEntry
  pages_processed : Nat
  pdfs_processed : Nat
  fetch_log : List (Url × Nat)
deriving Repr

/-- `WebCrawler._process_html` (src2): skip if already recorded, call the
scraper (logged as a fetch), record `error` on failure, `empty` on
whitespace-only text (still returning the raw links), else append the
text, record `success`, bump the HTML counter and return the links that
pass the `.pdf` carve-out or the generic `is_valid_url` check and start
with the base URL. -/
def process_html (env : Env) (st : CrawlState) (url base_url : Url)
    (depth : Nat) : Bool × List Url × CrawlState :=
  if is_processed st.ledger url then (false, [], st)
  else
    let st := { st with fetch_log := st.fetch_log ++ [(url, depth)] }
    match env.scrape_with_links url with
    | none =>
        (false, [], { st with ledger := mark_as_processed st.ledger url .error .html })
    | some (text, links) =>
        if (pyStrip text).isEmpty then
          (false, links, { st with ledger := mark_as_processed st.ledger url .empty .html })
        else
          let st := { st with
            sink := append_text st.sink url text .html,
            ledger := mark_as_processed st.ledger url .success .html,
            pages_processed := st.pages_processed + 1 }
          let valid_links := links.filter (fun link =>
            (endsWith (lowerUrl link) pdfExt && url_starts_with_base link base_url) ||
            (is_valid_url link IGNORED_EXTENSIONS && url_starts_with_base link base_url))
          (true, valid_links, st)

/-- `WebCrawler._process_pdf` (src2): skip if already recorded, call the
PDF extractor (logged as a fetch), record `empty` when no usable text,
else append the text, record `success` and bump the PDF counter. -/
def process_pdf (env : Env) (st : CrawlState) (url : Url) (depth : Nat) :
    Bool × CrawlState :=
  if is_processed st.ledger url then (false, st)
  else
    let st := { st with fetch_log := st.fetch_log ++ [(url, depth)] }
    match env.pdf_extract url with
    | none =>
        (false, { st with ledger := mark_as_processed st.ledger url .empty .pdf })
    | some text =>
        if (pyStrip text).isEmpty then
          (false, { st with ledger := mark_as_processed st.ledger url .empty .pdf })
        else
          (true, { st with
            sink := append_text st.sink url text .pdf,
            ledger := mark_as_processed st.ledger url .success .pdf,
            pdfs_processed := st.pdfs_processed + 1 })

/-- `WebCrawler._process_url` (src2): dispatch on a `.pdf` suffix (PDFs
contribute no links), else the HTML path. -/
def process_url (env : Env) (st : CrawlState) (url base_url : Url)
    (depth : Nat) : Bool × List Url × CrawlState :=
  if endsWith (lowerUrl url) pdfExt then
    let r := process_pdf env st url depth
    (r.1, [], r.2)
  else process_html env st url base_url depth

/-- The link-acceptance test of the three identical enqueue loops in
`crawl`: not yet visited, starts with the base URL, passes the optional
filter.  The candidate is the already-normalized link. -/
def accept_link (env : Env) (start_url : Url) (visited : List Url)
    (link : Url) : Bool :=
  let nl := normalize_url link
  !memUrl nl visited && url_starts_with_base nl start_url &&
    applyFilter env.url_filter nl

/-- One enqueue loop of `crawl`: append `(normalize_url(link), d)` for
every accepted link. -/
def enqueue_links (env : Env) (start_url : Url) (visited : List Url)
    (queue : List (Url × Nat)) (links : List Url) (d : Nat) :
    List (Url × Nat) :=
  queue ++ (links.filter (accept_link env start_url visited)).map
    (fun link => (normalize_url link, d))

/-- The `while queue and len(visited) < remaining_pages:` loop of
`WebCrawler.crawl` (src2, lines 110-139), as a fuel-indexed recursion.
`remaining` is the `remaining_pages` value computed once before the loop
(a Python int, possibly negative).  Every theorem below quantifies over
the fuel, so exhausting it only ever stops the loop early. -/
def crawl_loop (env : Env) (max_depth max_pages : Nat) (start_url : Url)
    (remaining : Int) : Nat → CrawlState → CrawlState
  | 0, st => st
  | fuel + 1, st =>
    match st.queue with
    | [] => st
    | (current_url, depth) :: rest =>
      if (st.visited.length : Int) < remaining then
        let st1 := { st with queue := rest }
        let u := normalize_url current_url
        if memUrl u st1.visited || decide (max_depth < depth) then
          crawl_loop env max_depth max_pages start_url remaining fuel st1
        else if is_processed st1.ledger u then
          crawl_loop env max_depth max_pages start_url remaining fuel
            { st1 with visited := st1.visited ++ [u] }
        else if !url_starts_with_base u start_url then
          crawl_loop env max_depth max_pages start_url remaining fuel st1
        else if !applyFilter env.url_filter u then
          crawl_loop env max_depth max_pages start_url remaining fuel st1
        else
          match process_url env st1 u start_url depth with
          | (success, links, st2) =>
            let st3 :=
              if success then
                { st2 with visited := st2.visited ++ [u],
                           queue := enqueue_links env start_url
                             (st2.visited ++ [u]) st2.queue links (depth + 1) }
              else st2
            if max_pages ≤ st3.pages_processed + st3.pdfs_processed then st3
            else crawl_loop env max_depth max_pages start_url remaining fuel st3
      else st

/-- The pre-loop part of `WebCrawler.crawl` (src2, lines 65-107):
normalize the start URL, seed the frontier with `(start_url, 0)`, then
either process the start URL (and pop it back off the queue) when it has
no ledger record yet, or — when it is already recorded — mark it visited
and re-scrape it purely to harvest its links. -/
def crawl_init (env : Env) (ledger0 : List UrlRecord) (sink0 : List SinkEntry)
    (start_url : Url) : CrawlState :=
  let st0 : CrawlState :=
    { queue := [(start_url, 0)], visited := [], ledger := ledger0,
      sink := sink0,
      pages_processed := count_processed_by_type ledger0 .html,
      pdfs_processed := count_processed_by_type ledger0 .pdf,
      fetch_log := [] }
  if !is_processed st0.ledger start_url then
    match process_url env st0 start_url start_url 0 with
    | (success, links, st1) =>
      let st2 :=
        if success then
          { st1 with visited := st1.visited ++ [start_url],
                     queue := enqueue_links env start_url
                       (st1.visited ++ [start_url]) st1.queue links 1 }
        else st1
      match st2.queue with
      | (u, _) :: rest => if u = start_url then { st2 with queue := rest } else st2
      | [] => st2
  else
    let st1 := { st0 with visited := st0.visited ++ [start_url],
                          fetch_log := st0.fetch_log ++ [(start_url, 0)] }
    match env.scrape_with_links start_url with
    | none => st1
    | some (_, links) =>
      { st1 with queue := enqueue_links env start_url st1.visited st1.queue links 1 }

/-- `WebCrawler.crawl` (src2): construct the crawler over the persistent
ledger (the constructor initialises `pages_processed`/`pdfs_processed`
from the ledger's success counts), normalize the start URL, compute
`remaining_pages = max_pages - total_processed`, run the pre-loop block
and then the main loop. -/
def crawl (env : Env) (max_depth max_pages : Nat) (ledger0 : List UrlRecord)
    (sink0 : List SinkEntry) (fuel : Nat) (start_url0 : Url) : CrawlState :=
  let start_url := normalize_url start_url0
  let pages0 := count_processed_by_type ledger0 .html
  let pdfs0 := count_processed_by_type ledger0 .pdf
  let remaining : Int := (max_pages : Int) - ((pages0 + pdfs0 : Nat) : Int)
  crawl_loop env max_depth max_pages start_url remaining fuel
    (crawl_init env ledger0 sink0 start_url)

/-- The run's cumulative processed-page total `pages_processed +
pdfs_processed`. -/
def total_processed (st : CrawlState) : Nat :=
  st.pages_processed + st.pdfs_processed

/-- The scope predicate of the src2 engine (`in_scope(url, scope)` in the
spec's terms is `url_starts_with_base`). -/
def in_scope (url scope : Url) : Bool := url_starts_with_base url scope

/-! Concrete fixtures for the closed witness and counterexample theorems:
a three-page site rooted at `http://e.org/docs` (the spec's own test
scenario), a ledger that already records the start URL, a ledger with one
unrelated success record, and an always-failing fetcher. -/

/-- Fixture: the start URL of the concrete scenario. -/
def docsUrl : Url := str "http://e.org/docs"

/-- Fixture: first child page. -/
def docsA : Url := str "http://e.org/docs/a"

/-- Fixture: second child page. -/
def docsB : Url := str "http://e.org/docs/b"

/-- Fixture fetcher: `/docs` links to `/docs/a`, `/docs/b` and an
out-of-scope URL; the children have text but no links. -/
def scrapeFix : Url → Option (Url × List Url) := fun u =>
  if u = docsUrl then
    some (str "hello text", [docsA, docsB, str "http://x.com/y"])
  else if u = docsA then some (str "aaa", [])
  else if u = docsB then some (str "bbb", [])
  else none

/-- Fixture environment over `scrapeFix`, with no PDF content and no
custom URL filter. -/
def envFix : Env :=
  { scrape_with_links := scrapeFix, pdf_extract := fun _ => none,
    url_filter := none }

/-- Fixture environment whose fetcher always fails. -/
def envFail : Env :=
  { scrape_with_links := fun _ => none, pdf_extract := fun _ => none,
    url_filter := none }

/-- Fixture ledger: the start URL is already recorded. -/
def ledgerStart : List UrlRecord := [⟨docsUrl, Status.success, CType.html⟩]

/-- Fixture ledger: one success record for an unrelated URL. -/
def ledgerOld : List UrlRecord :=
  [⟨str "http://e.org/old", Status.success, CType.html⟩]

/-- Fixture mid-crawl state: `/docs/a` is at the head of the frontier at
depth 1 and already has a ledger record. -/
def stRecA : CrawlState :=
  { queue := [(docsA, 1)], visited := [docsUrl],
    ledger := [⟨docsA, Status.success, CType.html⟩], sink := [],
    pages_processed := 1, pdfs_processed := 0, fetch_log := [] }

/-- Fixture mid-crawl state: an entry at depth 5 heads the frontier. -/
def stDeep : CrawlState :=
  { queue := [(docsB, 5)], visited := [docsUrl], ledger := [], sink := [],
    pages_processed := 1, pdfs_processed := 0, fetch_log := [] }

/-- Fixture mid-crawl state: a fresh in-scope URL heads the frontier. -/
def stFresh : CrawlState :=
  { queue := [(docsA, 1)], visited := [docsUrl], ledger := [], sink := [],
    pages_processed := 1, pdfs_processed := 0, fetch_log := [] }

/-- Fixture environment whose fetcher succeeds with whitespace-only text. -/
def envEmpty : Env :=
  { scrape_with_links := fun _ => some (str "  ", [docsA]),
    pdf_extract := fun _ => none, url_filter := none }

/-- Fixture: the empty crawl state over an empty ledger. -/
def stBlank : CrawlState :=
  { queue := [], visited := [], ledger := [], sink := [],
    pages_processed := 0, pdfs_processed := 0, fetch_log := [] }

/-- Fixture: an in-scope PDF URL. -/
def pdfA : Url := str "http://e.org/docs/a.pdf"

/-- Fixture mid-crawl state: a fresh in-scope `.pdf` URL heads the
frontier. -/
def stPdf : CrawlState :=
  { queue := [(pdfA, 1)], visited := [docsUrl], ledger := [], sink := [],
    pages_processed := 1, pdfs_processed := 0, fetch_log := [] }

/-- The master invariant of a run over initial ledger `L0` with
`pre` pre-run processed pages and normalized start URL `start`:
every logged fetch is the start URL or a URL with no pre-run record, and
happened at depth at most `maxd`; ledger records are never lost; every
ledger record is a pre-run record or belongs to an in-scope URL fetched
at depth at most `maxd`; the processed total stays between `pre` and
`pre + |visited|`; and (when the budget was not already exhausted
pre-run) the total never exceeds `max_pages`. -/
def Inv (L0 : List UrlRecord) (maxd maxp pre : Nat) (start : Url)
    (st : CrawlState) : Prop :=
  (∀ p ∈ st.fetch_log, (p.1 = start ∨ is_processed L0 p.1 = false) ∧ p.2 ≤ maxd) ∧
  (∀ v, is_processed L0 v = true → is_processed st.ledger v = true) ∧
  (∀ v, is_processed st.ledger v = true →
      is_processed L0 v = true ∨
      (url_starts_with_base v start = true ∧ ∃ d, d ≤ maxd ∧ (v, d) ∈ st.fetch_log)) ∧
  (pre ≤ total_processed st ∧ total_processed st ≤ pre + st.visited.length) ∧
  (pre < maxp → total_processed st ≤ maxp)

/-! Basic lemmas about the string helpers. -/

theorem startsWith_iff {u p : Url} : startsWith u p = true ↔ p <+: u := by
  simp [startsWith, List.isPrefixOf_iff_prefix]

theorem endsWith_iff {u e : Url} : endsWith u e = true ↔ e <:+ u := by
  unfold endsWith
  rw [List.isPrefixOf_iff_prefix]
  constructor
  · intro h
    simpa using h.reverse
  · intro h
    simpa using h.reverse

theorem startsWith_self (u : Url) : startsWith u u = true :=
  startsWith_iff.mpr (List.prefix_refl u)

theorem url_starts_with_base_self (u : Url) : url_starts_with_base u u = true :=
  startsWith_self (normalize_url u)

theorem ne_hash_of_mem_urldefrag {c : Char} {u : Url} (h : c ∈ urldefrag u) :
    c ≠ '#' := by
  have := List.mem_takeWhile_imp h
  simpa using this

theorem urldefrag_eq_self {u : Url} (h : ∀ c ∈ u, c ≠ '#') : urldefrag u = u := by
  unfold urldefrag
  rw [List.takeWhile_eq_self_iff]
  intro c hc
  simpa using h c hc

theorem mem_of_mem_rstripSlash {c : Char} {u : Url} (h : c ∈ rstripSlash u) :
    c ∈ u := by
  unfold rstripSlash List.rdropWhile at h
  rw [List.mem_reverse] at h
  have := (List.dropWhile_suffix (fun c => c == '/')).subset h
  exact List.mem_reverse.mp this

theorem rstripSlash_idem (u : Url) : rstripSlash (rstripSlash u) = rstripSlash u := by
  unfold rstripSlash
  exact List.rdropWhile_idempotent _ _

theorem normalize_url_idem (u : Url) :
    normalize_url (normalize_url u) = normalize_url u := by
  unfold normalize_url
  rw [urldefrag_eq_self (fun c hc =>
    ne_hash_of_mem_urldefrag (mem_of_mem_rstripSlash hc))]
  exact rstripSlash_idem _

theorem rstripSlash_append_slashes (u : Url) :
    ∃ n, u = rstripSlash u ++ List.replicate n '/' := by
  refine ⟨(List.rtakeWhile (fun c => c == '/') u).length, ?_⟩
  have hrep : List.rtakeWhile (fun c => c == '/') u =
      List.replicate (List.rtakeWhile (fun c => c == '/') u).length '/' :=
    List.eq_replicate_length.mpr (fun b hb => by
      have := List.mem_rtakeWhile_imp hb
      simpa using this)
  have hsplit : rstripSlash u ++ List.rtakeWhile (fun c => c == '/') u = u := by
    unfold rstripSlash List.rdropWhile List.rtakeWhile
    rw [← List.reverse_append, List.takeWhile_append_dropWhile, List.reverse_reverse]
  conv_lhs => rw [← hsplit]
  rw [hrep]
  simp

theorem rstripSlash_getLast? (u : Url) : (rstripSlash u).getLast? ≠ some '/' := by
  by_cases h : rstripSlash u = []
  · simp [h]
  · rw [List.getLast?_eq_getLast _ h]
    have := List.rdropWhile_last_not (fun c => c == '/') u h
    simp only [rstripSlash]
    intro hc
    apply this
    have : (List.rdropWhile (fun c => c == '/') u).getLast h = '/' := by
      have := Option.some.inj hc
      simpa [rstripSlash] using this
    simp [this]

/-! The `.pdf` carve-out: no ignored extension can be a suffix of a
string ending in `".pdf"`. -/

theorem ignored_ext_not_suffix_of_pdf :
    ∀ e ∈ IGNORED_EXTENSIONS, ∀ l : Url, pdfExt <:+ l → ¬ e <:+ l := by
  intro e he l hpdf hel
  have hcmp := List.prefix_or_prefix_of_prefix hpdf.reverse hel.reverse
  have : ¬ (pdfExt.reverse <+: e.reverse) ∧ ¬ (e.reverse <+: pdfExt.reverse) := by
    fin_cases he <;> exact ⟨by decide, by decide⟩
  rcases hcmp with h | h
  · exact this.1 h
  · exact this.2 h

theorem pdf_path_not_ignored {p : Url} (h : endsWith p pdfExt = true) :
    has_ignored_extension p IGNORED_EXTENSIONS = false := by
  rw [has_ignored_extension, List.any_eq_false]
  intro e he hcontra
  exact ignored_ext_not_suffix_of_pdf e he p (endsWith_iff.mp h)
    (endsWith_iff.mp hcontra)

/-! Lemmas about the ledger upsert. -/

theorem is_processed_iff {l : List UrlRecord} {v : Url} :
    is_processed l v = true ↔ ∃ r ∈ l, r.url = v := by
  simp [is_processed]

theorem mem_mark {l : List UrlRecord} {u : Url} {s : Status} {ct : CType}
    {r : UrlRecord} (h : r ∈ mark_as_processed l u s ct) :
    r ∈ l ∨ r = ⟨u, s, ct⟩ := by
  unfold mark_as_processed at h
  by_cases hp : is_processed l u = true
  · rw [if_pos hp] at h
    obtain ⟨r0, hr0, hfr⟩ := List.mem_map.mp h
    by_cases h0 : r0.url = u
    · right
      rw [← hfr]
      simp [h0]
    · left
      rw [← hfr]
      simpa [h0] using hr0
  · rw [if_neg hp] at h
    rcases List.mem_append.mp h with h | h
    · exact Or.inl h
    · right
      simpa using h

theorem mark_keeps {l : List UrlRecord} {v : Url} (u : Url) (s : Status)
    (ct : CType) (h : ∃ r ∈ l, r.url = v) :
    ∃ r ∈ mark_as_processed l u s ct, r.url = v := by
  obtain ⟨r, hr, hru⟩ := h
  unfold mark_as_processed
  by_cases hp : is_processed l u = true
  · rw [if_pos hp]
    by_cases h0 : r.url = u
    · exact ⟨⟨u, s, ct⟩, List.mem_map.mpr ⟨r, hr, by simp [h0]⟩, by rw [← hru, h0]⟩
    · exact ⟨r, List.mem_map.mpr ⟨r, hr, by simp [h0]⟩, hru⟩
  · rw [if_neg hp]
    exact ⟨r, List.mem_append_left _ hr, hru⟩

theorem self_mem_mark (l : List UrlRecord) (u : Url) (s : Status) (ct : CType) :
    ∃ r ∈ mark_as_processed l u s ct, r.url = u := by
  unfold mark_as_processed
  by_cases hp : is_processed l u = true
  · obtain ⟨r, hr, hru⟩ := is_processed_iff.mp hp
    rw [if_pos hp]
    exact ⟨⟨u, s, ct⟩, List.mem_map.mpr ⟨r, hr, by simp [hru]⟩, rfl⟩
  · rw [if_neg hp]
    exact ⟨⟨u, s, ct⟩, List.mem_append_right _ (by simp), rfl⟩

theorem is_processed_mark_of {l : List UrlRecord} {v : Url} (u : Url)
    (s : Status) (ct : CType) (h : is_processed l v = true) :
    is_processed (mark_as_processed l u s ct) v = true :=
  is_processed_iff.mpr (mark_keeps u s ct (is_processed_iff.mp h))

theorem is_processed_mark_self (l : List UrlRecord) (u : Url) (s : Status)
    (ct : CType) : is_processed (mark_as_processed l u s ct) u = true :=
  is_processed_iff.mpr (self_mem_mark l u s ct)

theorem is_processed_mark_elim {l : List UrlRecord} {u v : Url} {s : Status}
    {ct : CType} (h : is_processed (mark_as_processed l u s ct) v = true) :
    is_processed l v = true ∨ v = u := by
  obtain ⟨r, hr, hru⟩ := is_processed_iff.mp h
  rcases mem_mark hr with hm | hm
  · exact Or.inl (is_processed_iff.mpr ⟨r, hm, hru⟩)
  · right
    rw [← hru, hm]

/-! Shape of one `_process_url` call: the frontier and visited set are
untouched; either the URL already had a ledger record and nothing happens
(`success = false`), or exactly one fetch is logged, the ledger is
upserted at exactly that URL, and the success counters grow by one
exactly on success. -/

theorem process_url_shape (env : Env) (st : CrawlState) (u base : Url) (d : Nat) :
    ∀ success links st', process_url env st u base d = (success, links, st') →
      st'.queue = st.queue ∧ st'.visited = st.visited ∧
      ((is_processed st.ledger u = true ∧ st' = st ∧ success = false) ∨
       (is_processed st.ledger u = false ∧
        st'.fetch_log = st.fetch_log ++ [(u, d)] ∧
        (∃ status ct, st'.ledger = mark_as_processed st.ledger u status ct) ∧
        total_processed st ≤ total_processed st' ∧
        total_processed st' ≤ total_processed st + (if success = true then 1 else 0))) := by
  intro success links st' hp
  unfold process_url at hp
  by_cases hpdf : endsWith (lowerUrl u) pdfExt = true
  · rw [if_pos hpdf] at hp
    unfold process_pdf at hp
    by_cases hproc : is_processed st.ledger u = true
    · rw [if_pos hproc] at hp
      injection hp with h1 h2
      injection h2 with h2 h3
      subst h1; subst h3
      exact ⟨rfl, rfl, Or.inl ⟨hproc, rfl, rfl⟩⟩
    · rw [if_neg hproc] at hp
      rw [Bool.not_eq_true] at hproc
      cases hx : env.pdf_extract u with
      | none =>
        rw [hx] at hp
        injection hp with h1 h2
        injection h2 with h2 h3
        subst h1; subst h3
        exact ⟨rfl, rfl, Or.inr ⟨hproc, rfl, ⟨Status.empty, CType.pdf, rfl⟩,
          by simp [total_processed] <;> omega, by simp [total_processed] <;> omega⟩⟩
      | some text =>
        rw [hx] at hp
        dsimp only at hp
        by_cases hb : (pyStrip text).isEmpty = true
        · rw [if_pos hb] at hp
          injection hp with h1 h2
          injection h2 with h2 h3
          subst h1; subst h3
          exact ⟨rfl, rfl, Or.inr ⟨hproc, rfl, ⟨Status.empty, CType.pdf, rfl⟩,
            by simp [total_processed] <;> omega, by simp [total_processed] <;> omega⟩⟩
        · rw [if_neg hb] at hp
          injection hp with h1 h2
          injection h2 with h2 h3
          subst h1; subst h3
          exact ⟨rfl, rfl, Or.inr ⟨hproc, rfl, ⟨Status.success, CType.pdf, rfl⟩,
            by simp [total_processed] <;> omega, by simp [total_processed] <;> omega⟩⟩
  · rw [if_neg hpdf] at hp
    unfold process_html at hp
    by_cases hproc : is_processed st.ledger u = true
    · rw [if_pos hproc] at hp
      injection hp with h1 h2
      injection h2 with h2 h3
      subst h1; subst h3
      exact ⟨rfl, rfl, Or.inl ⟨hproc, rfl, rfl⟩⟩
    · rw [if_neg hproc] at hp
      rw [Bool.not_eq_true] at hproc
      cases hx : env.scrape_with_links u with
      | none =>
        rw [hx] at hp
        injection hp with h1 h2
        injection h2 with h2 h3
        subst h1; subst h3
        exact ⟨rfl, rfl, Or.inr ⟨hproc, rfl, ⟨Status.error, CType.html, rfl⟩,
          by simp [total_processed] <;> omega, by simp [total_processed] <;> omega⟩⟩
      | some res =>
        obtain ⟨text, links0⟩ := res
        rw [hx] at hp
        dsimp only at hp
        by_cases hb : (pyStrip text).isEmpty = true
        · rw [if_pos hb] at hp
          injection hp with h1 h2
          injection h2 with h2 h3
          subst h1; subst h3
          exact ⟨rfl, rfl, Or.inr ⟨hproc, rfl, ⟨Status.empty, CType.html, rfl⟩,
            by simp [total_processed] <;> omega, by simp [total_processed] <;> omega⟩⟩
        · rw [if_neg hb] at hp
          injection hp with h1 h2
          injection h2 with h2 h3
          subst h1; subst h3
          exact ⟨rfl, rfl, Or.inr ⟨hproc, rfl, ⟨Status.success, CType.html, rfl⟩,
            by simp [total_processed] <;> omega, by simp [total_processed] <;> omega⟩⟩

/-! Preservation of the master invariant. -/

theorem Inv_requeue {L0 : List UrlRecord} {maxd maxp pre : Nat} {start : Url}
    {st : CrawlState} (q' : List (Url × Nat)) (v' : List Url)
    (hv : st.visited.length ≤ v'.length)
    (h : Inv L0 maxd maxp pre start st) :
    Inv L0 maxd maxp pre start { st with queue := q', visited := v' } := by
  obtain ⟨h1, h2, h3, ⟨h4a, h4b⟩, h5⟩ := h
  refine ⟨h1, h2, h3, ⟨h4a, ?_⟩, h5⟩
  show total_processed st ≤ pre + v'.length
  omega

theorem Inv_process_step (env : Env) {L0 : List UrlRecord} {maxd maxp pre : Nat}
    {start : Url} {st : CrawlState} (u : Url) (d : Nat)
    (q' : List (Url × Nat)) (v' : List Url)
    {success : Bool} {links : List Url} {st' : CrawlState}
    (hp : process_url env st u start d = (success, links, st'))
    (h : Inv L0 maxd maxp pre start st)
    (hd : d ≤ maxd)
    (hscope : url_starts_with_base u start = true)
    (hroom : pre < maxp → total_processed st + 1 ≤ maxp)
    (hv : st.visited.length + (if success = true then 1 else 0) ≤ v'.length) :
    Inv L0 maxd maxp pre start { st' with queue := q', visited := v' } := by
  obtain ⟨h1, h2, h3, ⟨h4a, h4b⟩, h5⟩ := h
  obtain ⟨hq, hvis, hdisj⟩ := process_url_shape env st u start d success links st' hp
  rcases hdisj with ⟨hproc, hst, hsucc⟩ | ⟨hproc, hfl, ⟨status, ct, hled⟩, hlo, hhi⟩
  · subst hsucc
    rw [hst]
    refine ⟨h1, h2, h3, ⟨h4a, ?_⟩, h5⟩
    show total_processed st ≤ pre + v'.length
    simp only [Bool.false_eq_true, if_false] at hv
    omega
  · refine ⟨?_, ?_, ?_, ⟨?_, ?_⟩, ?_⟩
    · intro p hp2
      have hp3 : p ∈ st.fetch_log ++ [(u, d)] := by
        rw [← hfl]
        exact hp2
      rcases List.mem_append.mp hp3 with hmem | hmem
      · exact h1 p hmem
      · have hpu : p = (u, d) := by simpa using hmem
        subst hpu
        refine ⟨?_, hd⟩
        by_cases hL0 : is_processed L0 u = true
        · exact absurd (h2 u hL0) (by simp [hproc])
        · exact Or.inr (by simpa using hL0)
    · intro v hv0
      show is_processed st'.ledger v = true
      rw [hled]
      exact is_processed_mark_of _ _ _ (h2 v hv0)
    · intro v hv0
      have hv1 : is_processed st'.ledger v = true := hv0
      rw [hled] at hv1
      rcases is_processed_mark_elim hv1 with hold | hvu
      · rcases h3 v hold with hL | ⟨hs, d0, hd0, hmem⟩
        · exact Or.inl hL
        · refine Or.inr ⟨hs, d0, hd0, ?_⟩
          show (v, d0) ∈ st'.fetch_log
          rw [hfl]
          exact List.mem_append_left _ hmem
      · subst hvu
        refine Or.inr ⟨hscope, d, hd, ?_⟩
        show (v, d) ∈ st'.fetch_log
        rw [hfl]
        exact List.mem_append_right _ (by simp)
    · exact le_trans h4a hlo
    · show total_processed st' ≤ pre + v'.length
      by_cases hbs : success = true
      · simp only [hbs, if_true] at hv hhi
        omega
      · simp [hbs] at hv hhi
        omega
    · intro hpm
      show total_processed st' ≤ maxp
      have hr := hroom hpm
      have h5' := h5 hpm
      by_cases hbs : success = true
      · simp only [hbs, if_true] at hhi
        omega
      · simp [hbs] at hhi
        omega

theorem Inv_set_queue {L0 : List UrlRecord} {maxd maxp pre : Nat} {start : Url}
    {st : CrawlState} (q' : List (Url × Nat))
    (h : Inv L0 maxd maxp pre start st) :
    Inv L0 maxd maxp pre start { st with queue := q' } := by
  obtain ⟨h1, h2, h3, ⟨h4a, h4b⟩, h5⟩ := h
  exact ⟨h1, h2, h3, ⟨h4a, h4b⟩, h5⟩

theorem crawl_loop_inv (env : Env) (maxd maxp pre : Nat) (L0 : List UrlRecord)
    (start : Url) (remaining : Int)
    (hrem : remaining = (maxp : Int) - (pre : Int)) :
    ∀ fuel st, Inv L0 maxd maxp pre start st →
      Inv L0 maxd maxp pre start (crawl_loop env maxd maxp start remaining fuel st) := by
  intro fuel
  induction fuel with
  | zero =>
    intro st h
    exact h
  | succ n ih =>
    intro st h
    rw [crawl_loop]
    cases hq : st.queue with
    | nil => exact h
    | cons head rest =>
      obtain ⟨c, d⟩ := head
      dsimp only
      by_cases hg : (st.visited.length : Int) < remaining
      · rw [if_pos hg]
        by_cases h1 : (memUrl (normalize_url c) st.visited || decide (maxd < d)) = true
        · rw [if_pos h1]
          exact ih _ (Inv_requeue rest st.visited le_rfl h)
        · rw [if_neg h1]
          simp only [Bool.or_eq_true, decide_eq_true_eq, not_or, Bool.not_eq_true] at h1
          obtain ⟨hv1, hd1⟩ := h1
          have hd2 : d ≤ maxd := Nat.not_lt.mp hd1
          by_cases h2 : is_processed st.ledger (normalize_url c) = true
          · rw [if_pos h2]
            exact ih _ (Inv_requeue rest (st.visited ++ [normalize_url c]) (by simp) h)
          · rw [if_neg h2]
            by_cases h3 : (!url_starts_with_base (normalize_url c) start) = true
            · rw [if_pos h3]
              exact ih _ (Inv_requeue rest st.visited le_rfl h)
            · rw [if_neg h3]
              by_cases h4 : (!applyFilter env.url_filter (normalize_url c)) = true
              · rw [if_pos h4]
                exact ih _ (Inv_requeue rest st.visited le_rfl h)
              · rw [if_neg h4]
                have hscope : url_starts_with_base (normalize_url c) start = true := by
                  simpa using h3
                have hst1 : Inv L0 maxd maxp pre start { st with queue := rest } :=
                  Inv_requeue rest st.visited le_rfl h
                have hroom : pre < maxp →
                    total_processed { st with queue := rest } + 1 ≤ maxp := by
                  intro hpm
                  obtain ⟨_, _, _, ⟨_, h4b⟩, _⟩ := h
                  rw [hrem] at hg
                  show total_processed st + 1 ≤ maxp
                  omega
                rcases hp : process_url env { st with queue := rest }
                    (normalize_url c) start d with ⟨success, links, st2⟩
                obtain ⟨hq2, hvis2, _⟩ := process_url_shape env
                  { st with queue := rest } (normalize_url c) start d
                  success links st2 hp
                dsimp only
                cases success with
                | true =>
                  simp only [eq_self_iff_true, if_true]
                  have hInv2 : Inv L0 maxd maxp pre start
                      { st2 with
                        visited := st2.visited ++ [normalize_url c],
                        queue := enqueue_links env start
                          (st2.visited ++ [normalize_url c]) st2.queue links (d + 1) } := by
                    refine Inv_process_step env (normalize_url c) d _ _ hp hst1 hd2
                      hscope hroom ?_
                    show ({ st with queue := rest } : CrawlState).visited.length +
                      (if true = true then 1 else 0) ≤ (st2.visited ++ [normalize_url c]).length
                    simp [hvis2]
                  by_cases hbrk : maxp ≤ st2.pages_processed + st2.pdfs_processed
                  · rw [if_pos hbrk]
                    exact hInv2
                  · rw [if_neg hbrk]
                    exact ih _ hInv2
                | false =>
                  simp only [Bool.false_eq_true, if_false]
                  have hInv2 : Inv L0 maxd maxp pre start st2 := by
                    refine Inv_process_step env (normalize_url c) d st2.queue
                      st2.visited hp hst1 hd2 hscope hroom ?_
                    show ({ st with queue := rest } : CrawlState).visited.length +
                      (if false = true then 1 else 0) ≤ st2.visited.length
                    simp [hvis2]
                  by_cases hbrk : maxp ≤ st2.pages_processed + st2.pdfs_processed
                  · rw [if_pos hbrk]
                    exact hInv2
                  · rw [if_neg hbrk]
                    exact ih _ hInv2
      · rw [if_neg hg]
        exact h

theorem crawl_init_inv (env : Env) (L0 : List UrlRecord) (S0 : List SinkEntry)
    (maxd maxp : Nat) (start : Url) :
    Inv L0 maxd maxp
      (count_processed_by_type L0 CType.html + count_processed_by_type L0 CType.pdf)
      start (crawl_init env L0 S0 start) := by
  have h0 : Inv L0 maxd maxp
      (count_processed_by_type L0 CType.html + count_processed_by_type L0 CType.pdf)
      start
      { queue := [(start, 0)], visited := [], ledger := L0, sink := S0,
        pages_processed := count_processed_by_type L0 CType.html,
        pdfs_processed := count_processed_by_type L0 CType.pdf,
        fetch_log := [] } := by
    refine ⟨by simp, fun v hv => hv, fun v hv => Or.inl hv, ⟨?_, ?_⟩, ?_⟩
    · exact le_rfl
    · simp [total_processed]
    · intro h
      exact le_of_lt h
  rw [crawl_init]
  dsimp only
  by_cases hproc : is_processed L0 start = true
  · rw [if_neg (by simp [hproc])]
    have h1 : Inv L0 maxd maxp
        (count_processed_by_type L0 CType.html + count_processed_by_type L0 CType.pdf)
        start
        { queue := [(start, 0)], visited := [] ++ [start], ledger := L0, sink := S0,
          pages_processed := count_processed_by_type L0 CType.html,
          pdfs_processed := count_processed_by_type L0 CType.pdf,
          fetch_log := [] ++ [(start, 0)] } := by
      refine ⟨?_, fun v hv => hv, fun v hv => Or.inl hv, ⟨?_, ?_⟩, ?_⟩
      · intro p hp
        have : p = (start, 0) := by simpa using hp
        subst this
        exact ⟨Or.inl rfl, Nat.zero_le _⟩
      · exact le_rfl
      · simp [total_processed]
      · intro h
        exact le_of_lt h
    cases hscr : env.scrape_with_links start with
    | none => exact h1
    | some res =>
      obtain ⟨t, links⟩ := res
      dsimp only
      exact Inv_requeue _ _ le_rfl h1
  · rw [if_pos (by simp [hproc])]
    rcases hp : process_url env
        { queue := [(start, 0)], visited := [], ledger := L0, sink := S0,
          pages_processed := count_processed_by_type L0 CType.html,
          pdfs_processed := count_processed_by_type L0 CType.pdf,
          fetch_log := [] } start start 0 with ⟨success, links, st'⟩
    obtain ⟨hq2, hvis2, _⟩ := process_url_shape env _ start start 0 success links st' hp
    dsimp only
    have hroom : (count_processed_by_type L0 CType.html +
          count_processed_by_type L0 CType.pdf) < maxp →
        total_processed
          { queue := [(start, 0)], visited := [], ledger := L0, sink := S0,
            pages_processed := count_processed_by_type L0 CType.html,
            pdfs_processed := count_processed_by_type L0 CType.pdf,
            fetch_log := [] } + 1 ≤ maxp := by
      intro hpm
      simpa [total_processed] using hpm
    cases success with
    | true =>
      simp only [eq_self_iff_true, if_true]
      have hInv2 : Inv L0 maxd maxp
          (count_processed_by_type L0 CType.html + count_processed_by_type L0 CType.pdf)
          start
          { st' with
            visited := st'.visited ++ [start],
            queue := enqueue_links env start (st'.visited ++ [start]) st'.queue links 1 } := by
        refine Inv_process_step env start 0 _ _ hp h0 (Nat.zero_le _)
          (url_starts_with_base_self start) hroom ?_
        simp [hvis2]
      cases hq3 : (enqueue_links env start (st'.visited ++ [start]) st'.queue links 1) with
      | nil =>
        rw [hq3] at hInv2
        exact hInv2
      | cons hd tl =>
        obtain ⟨u2, d2⟩ := hd
        rw [hq3] at hInv2
        dsimp only
        by_cases he : u2 = start
        · rw [if_pos he]
          exact Inv_set_queue tl hInv2
        · rw [if_neg he]
          exact hInv2
    | false =>
      simp only [Bool.false_eq_true, if_false]
      have hInv2 : Inv L0 maxd maxp
          (count_processed_by_type L0 CType.html + count_processed_by_type L0 CType.pdf)
          start st' := by
        refine Inv_process_step env start 0 st'.queue st'.visited hp h0 (Nat.zero_le _)
          (url_starts_with_base_self start) hroom ?_
        simp [hvis2]
      cases hq3 : st'.queue with
      | nil => exact hInv2
      | cons hd tl =>
        obtain ⟨u2, d2⟩ := hd
        dsimp only
        by_cases he : u2 = start
        · rw [if_pos he]
          exact Inv_set_queue tl hInv2
        · rw [if_neg he]
          exact hInv2

theorem crawl_inv (env : Env) (maxd maxp : Nat) (L0 : List UrlRecord)
    (S0 : List SinkEntry) (fuel : Nat) (start0 : Url) :
    Inv L0 maxd maxp
      (count_processed_by_type L0 CType.html + count_processed_by_type L0 CType.pdf)
      (normalize_url start0) (crawl env maxd maxp L0 S0 fuel start0) := by
  rw [crawl]
  exact crawl_loop_inv env maxd maxp _ L0 _ _ (by push_cast; ring) fuel _
    (crawl_init_inv env L0 S0 maxd maxp (normalize_url start0))

/-! The claim theorems. -/

/-- C1 (counterexample): the claim includes "running crawl(X) a second time
with an unreset ledger re-fetches no previously recorded URL", but when the
start URL itself is already recorded, `crawl` (src2, line 99) re-fetches it
via `scrape_with_links` to harvest its links: here the start URL has a
ledger record, yet it appears in the fetch log of the run. -/
theorem claim_C1_counterexample :
    is_processed ledgerStart (normalize_url docsUrl) = true ∧
    (normalize_url docsUrl, 0) ∈ (crawl envFix 1 10 ledgerStart [] 10 docsUrl).fetch_log :=
  ⟨by decide, by decide⟩

/-- C1 (amended): for every dequeued URL that already has a ledger record,
the engine marks it visited and drops it without fetching (first
conjunct: the loop step pops the entry, adds it to the visited set and
changes nothing else); consequently the only previously recorded URL a
re-run may re-fetch is the start URL itself, which the engine re-scrapes
once to harvest its links (second conjunct: every fetch in a whole run is
the normalized start URL or a URL with no pre-run ledger record). -/
theorem claim_C1_incremental_resume :
    (∀ (env : Env) (maxd maxp : Nat) (start : Url) (remaining : Int) (fuel : Nat)
       (st : CrawlState) (c : Url) (d : Nat) (rest : List (Url × Nat)),
       st.queue = (c, d) :: rest → (st.visited.length : Int) < remaining →
       memUrl (normalize_url c) st.visited = false → d ≤ maxd →
       is_processed st.ledger (normalize_url c) = true →
       crawl_loop env maxd maxp start remaining (fuel + 1) st =
         crawl_loop env maxd maxp start remaining fuel
           { st with queue := rest, visited := st.visited ++ [normalize_url c] }) ∧
    (∀ (env : Env) (maxd maxp : Nat) (L0 : List UrlRecord) (S0 : List SinkEntry)
       (fuel : Nat) (start0 : Url) (p : Url × Nat),
       p ∈ (crawl env maxd maxp L0 S0 fuel start0).fetch_log →
       p.1 = normalize_url start0 ∨ is_processed L0 p.1 = false) := by
  constructor
  · intro env maxd maxp start remaining fuel st c d rest hq hg hv hd hpr
    rw [crawl_loop, hq]
    dsimp only
    rw [if_pos hg]
    rw [if_neg (by simp [hv, Nat.not_lt.mpr hd] :
      ¬ (memUrl (normalize_url c) st.visited || decide (maxd < d)) = true)]
    rw [if_pos hpr]
  · intro env maxd maxp L0 S0 fuel start0 p hp
    obtain ⟨h1, _, _, _, _⟩ := crawl_inv env maxd maxp L0 S0 fuel start0
    exact (h1 p hp).1

/-- C1 (witness): applying the amended theorem at a concrete recorded URL
at the head of the frontier, and at a concrete fetch-log entry of a
concrete run. -/
theorem claim_C1_witness :
    (crawl_loop envFix 3 10 docsUrl 5 1 stRecA =
      crawl_loop envFix 3 10 docsUrl 5 0
        { stRecA with queue := [], visited := stRecA.visited ++ [normalize_url docsA] }) ∧
    ((docsA, 1) ∈ (crawl envFix 1 10 ledgerStart [] 10 docsUrl).fetch_log ∧
      ((docsA, 1).1 = normalize_url docsUrl ∨ is_processed ledgerStart (docsA, 1).1 = false)) :=
  ⟨claim_C1_incremental_resume.1 envFix 3 10 docsUrl 5 0 stRecA docsA 1 []
      (by decide) (by decide) (by decide) (by decide) (by decide),
   by decide,
   claim_C1_incremental_resume.2 envFix 1 10 ledgerStart [] 10 docsUrl (docsA, 1)
      (by decide)⟩

/-- C2 (counterexample): with `max_pages = 1` and a pre-run ledger already
holding one success record, the engine still processes the fresh start URL
(the initial URL is handled before any budget check), so the cumulative
total reaches 2 > `max_pages`, contradicting "never exceeds max_pages". -/
theorem claim_C2_counterexample :
    count_processed_by_type ledgerOld CType.html +
      count_processed_by_type ledgerOld CType.pdf = 1 ∧
    total_processed (crawl envFix 1 1 ledgerOld [] 10 docsUrl) = 2 :=
  ⟨by decide, by decide⟩

/-- C2 (amended): the engine computes `remaining = max_pages -
already_processed` at start, and PROVIDED the pre-run processed count is
strictly below `max_pages`, the cumulative total `html_processed +
pdf_processed` (pre-run ledger successes plus this run's pages) never
exceeds `max_pages`; when the budget is already exhausted pre-run the
start URL may still be processed, exceeding `max_pages` by one. -/
theorem claim_C2_page_budget (env : Env) (maxd maxp : Nat) (L0 : List UrlRecord)
    (S0 : List SinkEntry) (fuel : Nat) (start0 : Url)
    (hpre : count_processed_by_type L0 CType.html +
      count_processed_by_type L0 CType.pdf < maxp) :
    total_processed (crawl env maxd maxp L0 S0 fuel start0) ≤ maxp := by
  obtain ⟨_, _, _, _, h5⟩ := crawl_inv env maxd maxp L0 S0 fuel start0
  exact h5 hpre

/-- C2 (witness): a fresh run with budget 10 stays within the budget. -/
theorem claim_C2_witness :
    count_processed_by_type ([] : List UrlRecord) CType.html +
      count_processed_by_type ([] : List UrlRecord) CType.pdf < 10 ∧
    total_processed (crawl envFix 1 10 [] [] 10 docsUrl) ≤ 10 :=
  ⟨by decide, claim_C2_page_budget envFix 1 10 [] [] 10 docsUrl (by decide)⟩

/-- C3: depth bound.  First conjunct: a dequeued frontier entry whose
depth exceeds `max_depth` is dropped: the loop pops it and changes
nothing else (no fetch, no ledger write).  Second conjunct: every fetch
of a whole run happens at depth ≤ `max_depth`.  Third conjunct: every
ledger record of a run is a pre-run record or records a URL that was
fetched at some depth ≤ `max_depth`. -/
theorem claim_C3_depth_bound :
    (∀ (env : Env) (maxd maxp : Nat) (start : Url) (remaining : Int) (fuel : Nat)
       (st : CrawlState) (c : Url) (d : Nat) (rest : List (Url × Nat)),
       st.queue = (c, d) :: rest → (st.visited.length : Int) < remaining →
       maxd < d →
       crawl_loop env maxd maxp start remaining (fuel + 1) st =
         crawl_loop env maxd maxp start remaining fuel { st with queue := rest }) ∧
    (∀ (env : Env) (maxd maxp : Nat) (L0 : List UrlRecord) (S0 : List SinkEntry)
       (fuel : Nat) (start0 : Url) (p : Url × Nat),
       p ∈ (crawl env maxd maxp L0 S0 fuel start0).fetch_log → p.2 ≤ maxd) ∧
    (∀ (env : Env) (maxd maxp : Nat) (L0 : List UrlRecord) (S0 : List SinkEntry)
       (fuel : Nat) (start0 : Url) (v : Url),
       is_processed (crawl env maxd maxp L0 S0 fuel start0).ledger v = true →
       is_processed L0 v = true ∨
       ∃ d, d ≤ maxd ∧ (v, d) ∈ (crawl env maxd maxp L0 S0 fuel start0).fetch_log) := by
  refine ⟨?_, ?_, ?_⟩
  · intro env maxd maxp start remaining fuel st c d rest hq hg hd
    rw [crawl_loop, hq]
    dsimp only
    rw [if_pos hg]
    rw [if_pos (by simp [hd] :
      (memUrl (normalize_url c) st.visited || decide (maxd < d)) = true)]
  · intro env maxd maxp L0 S0 fuel start0 p hp
    obtain ⟨h1, _, _, _, _⟩ := crawl_inv env maxd maxp L0 S0 fuel start0
    exact (h1 p hp).2
  · intro env maxd maxp L0 S0 fuel start0 v hv
    obtain ⟨_, _, h3, _, _⟩ := crawl_inv env maxd maxp L0 S0 fuel start0
    rcases h3 v hv with h | ⟨_, d, hd, hmem⟩
    · exact Or.inl h
    · exact Or.inr ⟨d, hd, hmem⟩

/-- C3 (witness): a depth-5 entry under `max_depth = 1` is dropped
untouched; a concrete fetch-log entry and a concrete ledger record of a
concrete run satisfy the bounds. -/
theorem claim_C3_witness :
    (crawl_loop envFix 1 10 docsUrl 5 1 stDeep =
      crawl_loop envFix 1 10 docsUrl 5 0 { stDeep with queue := [] }) ∧
    ((docsUrl, 0) ∈ (crawl envFix 1 10 [] [] 10 docsUrl).fetch_log ∧ (docsUrl, 0).2 ≤ 1) ∧
    (is_processed (crawl envFix 1 10 [] [] 10 docsUrl).ledger docsA = true ∧
      (is_processed ([] : List UrlRecord) docsA = true ∨
        ∃ d, d ≤ 1 ∧ (docsA, d) ∈ (crawl envFix 1 10 [] [] 10 docsUrl).fetch_log)) :=
  ⟨claim_C3_depth_bound.1 envFix 1 10 docsUrl 5 0 stDeep docsB 5 []
      (by decide) (by decide) (by decide),
   ⟨by decide, claim_C3_depth_bound.2.1 envFix 1 10 [] [] 10 docsUrl (docsUrl, 0) (by decide)⟩,
   ⟨by decide, claim_C3_depth_bound.2.2 envFix 1 10 [] [] 10 docsUrl docsA (by decide)⟩⟩

/-- C4: scope containment — every URL holding a ledger record after a
crawl either already had one before the run, or satisfies the engine's
scope predicate `in_scope(url, start_scope)` (out-of-scope URLs are
dropped before any fetch or ledger write). -/
theorem claim_C4_scope_containment (env : Env) (maxd maxp : Nat)
    (L0 : List UrlRecord) (S0 : List SinkEntry) (fuel : Nat) (start0 : Url)
    (v : Url)
    (hv : is_processed (crawl env maxd maxp L0 S0 fuel start0).ledger v = true) :
    is_processed L0 v = true ∨ in_scope v (normalize_url start0) = true := by
  obtain ⟨_, _, h3, _, _⟩ := crawl_inv env maxd maxp L0 S0 fuel start0
  rcases h3 v hv with h | ⟨hs, _⟩
  · exact Or.inl h
  · exact Or.inr hs

/-- C4 (witness): a concrete record created by a concrete run is in
scope. -/
theorem claim_C4_witness :
    is_processed (crawl envFix 1 10 [] [] 10 docsUrl).ledger docsA = true ∧
    (is_processed ([] : List UrlRecord) docsA = true ∨
      in_scope docsA (normalize_url docsUrl) = true) :=
  ⟨by decide, claim_C4_scope_containment envFix 1 10 [] [] 10 docsUrl docsA (by decide)⟩

/-- C5 (counterexample): the claim covers "every dequeued URL whose fetch
fails", but a dequeued `.pdf` URL whose fetch fails (the PDF extractor
catches the network error internally and returns none) is recorded with
`status = empty`, not `status = error`: one loop step on a frontier headed
by a fresh in-scope PDF URL with an always-failing fetcher leaves exactly
one ledger record, and its status is `empty`. -/
theorem claim_C5_counterexample :
    stPdf.queue = [(pdfA, 1)] ∧
    envFail.pdf_extract pdfA = none ∧
    (crawl_loop envFail 3 10 docsUrl 5 1 stPdf).ledger =
      [⟨pdfA, Status.empty, CType.pdf⟩] ∧
    Status.empty ≠ Status.error :=
  ⟨rfl, rfl, by decide, by decide⟩

/-- C5 (amended): per-URL failure is local, recorded and non-fatal.  For
a dequeued non-PDF URL whose fetch fails (the scraper returns none, which
also covers collaborator exceptions, all caught inside the scraper), one
loop step writes exactly one ledger record, `status = error`, for that
URL alone and then continues with the remaining frontier (first
conjunct); for a dequeued `.pdf` URL whose fetch fails, the record is
written with `status = empty` instead, and the loop likewise continues
(second conjunct).  In both cases the step equation shows the recursion
proceeds on the rest of the queue with only the record and the fetch-log
entry added — no failure terminates the run. -/
theorem claim_C5_failure_recorded_nonfatal :
    (∀ (env : Env) (maxd maxp : Nat) (start : Url) (remaining : Int) (fuel : Nat)
       (st : CrawlState) (c : Url) (d : Nat) (rest : List (Url × Nat)),
       st.queue = (c, d) :: rest → (st.visited.length : Int) < remaining →
       memUrl (normalize_url c) st.visited = false → d ≤ maxd →
       is_processed st.ledger (normalize_url c) = false →
       url_starts_with_base (normalize_url c) start = true →
       applyFilter env.url_filter (normalize_url c) = true →
       endsWith (lowerUrl (normalize_url c)) pdfExt = false →
       env.scrape_with_links (normalize_url c) = none →
       st.pages_processed + st.pdfs_processed < maxp →
       crawl_loop env maxd maxp start remaining (fuel + 1) st =
         crawl_loop env maxd maxp start remaining fuel
           { st with queue := rest,
                     ledger := mark_as_processed st.ledger (normalize_url c)
                       Status.error CType.html,
                     fetch_log := st.fetch_log ++ [(normalize_url c, d)] }) ∧
    (∀ (env : Env) (maxd maxp : Nat) (start : Url) (remaining : Int) (fuel : Nat)
       (st : CrawlState) (c : Url) (d : Nat) (rest : List (Url × Nat)),
       st.queue = (c, d) :: rest → (st.visited.length : Int) < remaining →
       memUrl (normalize_url c) st.visited = false → d ≤ maxd →
       is_processed st.ledger (normalize_url c) = false →
       url_starts_with_base (normalize_url c) start = true →
       applyFilter env.url_filter (normalize_url c) = true →
       endsWith (lowerUrl (normalize_url c)) pdfExt = true →
       env.pdf_extract (normalize_url c) = none →
       st.pages_processed + st.pdfs_processed < maxp →
       crawl_loop env maxd maxp start remaining (fuel + 1) st =
         crawl_loop env maxd maxp start remaining fuel
           { st with queue := rest,
                     ledger := mark_as_processed st.ledger (normalize_url c)
                       Status.empty CType.pdf,
                     fetch_log := st.fetch_log ++ [(normalize_url c, d)] }) := by
  constructor
  · intro env maxd maxp start remaining fuel st c d rest hq hg hv hd hpr hsc hfil
      hpdf hfail hbud
    have hpu : process_url env { st with queue := rest } (normalize_url c) start d =
        (false, [],
         { st with queue := rest,
                   ledger := mark_as_processed st.ledger (normalize_url c)
                     Status.error CType.html,
                   fetch_log := st.fetch_log ++ [(normalize_url c, d)] }) := by
      unfold process_url
      rw [if_neg (by simp [hpdf])]
      unfold process_html
      rw [show is_processed ({ st with queue := rest } : CrawlState).ledger
        (normalize_url c) = false from hpr]
      simp only [Bool.false_eq_true, if_false]
      rw [hfail]
    rw [crawl_loop, hq]
    dsimp only
    rw [if_pos hg]
    rw [if_neg (by simp [hv, Nat.not_lt.mpr hd] :
      ¬ (memUrl (normalize_url c) st.visited || decide (maxd < d)) = true)]
    rw [if_neg (by simp [hpr] :
      ¬ is_processed ({ st with queue := rest } : CrawlState).ledger (normalize_url c) = true)]
    rw [if_neg (by simp [hsc] :
      ¬ (!url_starts_with_base (normalize_url c) start) = true)]
    rw [if_neg (by simp [hfil] :
      ¬ (!applyFilter env.url_filter (normalize_url c)) = true)]
    rw [hpu]
    dsimp only
    simp only [Bool.false_eq_true, if_false]
    rw [if_neg (by simpa using Nat.not_le.mpr hbud)]
  · intro env maxd maxp start remaining fuel st c d rest hq hg hv hd hpr hsc hfil
      hpdf hfail hbud
    have hpu : process_url env { st with queue := rest } (normalize_url c) start d =
        (false, [],
         { st with queue := rest,
                   ledger := mark_as_processed st.ledger (normalize_url c)
                     Status.empty CType.pdf,
                   fetch_log := st.fetch_log ++ [(normalize_url c, d)] }) := by
      unfold process_url
      rw [if_pos hpdf]
      unfold process_pdf
      rw [show is_processed ({ st with queue := rest } : CrawlState).ledger
        (normalize_url c) = false from hpr]
      simp only [Bool.false_eq_true, if_false]
      rw [hfail]
    rw [crawl_loop, hq]
    dsimp only
    rw [if_pos hg]
    rw [if_neg (by simp [hv, Nat.not_lt.mpr hd] :
      ¬ (memUrl (normalize_url c) st.visited || decide (maxd < d)) = true)]
    rw [if_neg (by simp [hpr] :
      ¬ is_processed ({ st with queue := rest } : CrawlState).ledger (normalize_url c) = true)]
    rw [if_neg (by simp [hsc] :
      ¬ (!url_starts_with_base (normalize_url c) start) = true)]
    rw [if_neg (by simp [hfil] :
      ¬ (!applyFilter env.url_filter (normalize_url c)) = true)]
    rw [hpu]
    dsimp only
    simp only [Bool.false_eq_true, if_false]
    rw [if_neg (by simpa using Nat.not_le.mpr hbud)]

/-- C5 (witness): with an always-failing fetcher, a fresh in-scope HTML
URL at the head of the frontier receives an error record and the loop
continues; a fresh in-scope `.pdf` URL receives an empty record and the
loop continues. -/
theorem claim_C5_witness :
    (envFail.scrape_with_links (normalize_url docsA) = none ∧
      crawl_loop envFail 3 10 docsUrl 5 1 stFresh =
        crawl_loop envFail 3 10 docsUrl 5 0
          { stFresh with queue := [],
                         ledger := mark_as_processed stFresh.ledger
                           (normalize_url docsA) Status.error CType.html,
                         fetch_log := stFresh.fetch_log ++
                           [(normalize_url docsA, 1)] }) ∧
    (envFail.pdf_extract (normalize_url pdfA) = none ∧
      crawl_loop envFail 3 10 docsUrl 5 1 stPdf =
        crawl_loop envFail 3 10 docsUrl 5 0
          { stPdf with queue := [],
                       ledger := mark_as_processed stPdf.ledger
                         (normalize_url pdfA) Status.empty CType.pdf,
                       fetch_log := stPdf.fetch_log ++
                         [(normalize_url pdfA, 1)] }) :=
  ⟨⟨rfl, claim_C5_failure_recorded_nonfatal.1 envFail 3 10 docsUrl 5 0 stFresh
      docsA 1 [] (by decide) (by decide) (by decide) (by decide) (by decide)
      (by decide) (by decide) (by decide) rfl (by decide)⟩,
   ⟨rfl, claim_C5_failure_recorded_nonfatal.2 envFail 3 10 docsUrl 5 0 stPdf
      pdfA 1 [] (by decide) (by decide) (by decide) (by decide) (by decide)
      (by decide) (by decide) (by decide) rfl (by decide)⟩⟩

/-- C6: empty extraction — when the fetch succeeds but the extracted text
is empty or whitespace-only, `_process_html` records `status = empty` for
the URL and still returns the page's discovered links (for frontier
expansion), appending nothing to the text sink: the result state differs
from the input state only in the ledger upsert and the fetch-log entry. -/
theorem claim_C6_empty_extraction (env : Env) (st : CrawlState) (url base : Url)
    (d : Nat) (text : Url) (links : List Url)
    (hnp : is_processed st.ledger url = false)
    (hs : env.scrape_with_links url = some (text, links))
    (hb : (pyStrip text).isEmpty = true) :
    process_html env st url base d =
      (false, links,
       { st with ledger := mark_as_processed st.ledger url Status.empty CType.html,
                 fetch_log := st.fetch_log ++ [(url, d)] }) := by
  unfold process_html
  rw [hnp]
  simp only [Bool.false_eq_true, if_false]
  rw [hs]
  dsimp only
  rw [hb]
  simp only [eq_self_iff_true, if_true]

/-- C6 (witness): a whitespace-only page gets an `empty` record and its
link is still returned. -/
theorem claim_C6_witness :
    (pyStrip (str "  ")).isEmpty = true ∧
    process_html envEmpty stBlank docsUrl docsUrl 0 =
      (false, [docsA],
       { stBlank with
         ledger := mark_as_processed stBlank.ledger docsUrl Status.empty CType.html,
         fetch_log := stBlank.fetch_log ++ [(docsUrl, 0)] }) :=
  ⟨by decide, claim_C6_empty_extraction envEmpty stBlank docsUrl docsUrl 0
    (str "  ") [docsA] (by decide) rfl (by decide)⟩

/-- C7: the PDF carve-out — no URL path ending in `.pdf` is ever rejected
by the generic ignored-extensions check (`.pdf` is a suffix of the path
and no entry of `IGNORED_EXTENSIONS` can be one simultaneously), and
`_process_url` routes a `.pdf` URL to the PDF path, whose accepted-link
contribution to the frontier is the empty set. -/
theorem claim_C7_pdf_carveout :
    (∀ path : Url, endsWith path pdfExt = true →
       has_ignored_extension path IGNORED_EXTENSIONS = false) ∧
    (∀ (env : Env) (st : CrawlState) (url base : Url) (d : Nat),
       endsWith (lowerUrl url) pdfExt = true →
       process_url env st url base d =
         ((process_pdf env st url d).1, [], (process_pdf env st url d).2)) := by
  constructor
  · intro p hp
    exact pdf_path_not_ignored hp
  · intro env st url base d h
    unfold process_url
    rw [if_pos h]

/-- C7 (witness): a concrete `.pdf` path passes the extension filter, and
a concrete `.pdf` URL contributes no frontier links. -/
theorem claim_C7_witness :
    endsWith (str "/a/b.pdf") pdfExt = true ∧
    has_ignored_extension (str "/a/b.pdf") IGNORED_EXTENSIONS = false ∧
    (process_url envFix stFresh (str "http://e.org/docs/x.pdf") docsUrl 1).2.1 = [] := by
  refine ⟨by decide, claim_C7_pdf_carveout.1 (str "/a/b.pdf") (by decide), ?_⟩
  rw [claim_C7_pdf_carveout.2 envFix stFresh (str "http://e.org/docs/x.pdf")
    docsUrl 1 (by decide)]

/-- C8 (counterexample): `normalize_url` uses `rstrip('/')`, which removes
EVERY trailing slash, not exactly one: on "http://a//" the code yields
"http://a" while the spec's "strips exactly one trailing '/'" reading
yields "http://a/". -/
theorem claim_C8_counterexample :
    normalize_url (str "http://a//") = str "http://a" ∧
    normalize_url_one_slash (str "http://a//") = str "http://a/" ∧
    normalize_url (str "http://a//") ≠ normalize_url_one_slash (str "http://a//") :=
  ⟨by decide, by decide, by decide⟩

/-- C8 (amended): `normalize_url` removes the URI fragment (the result
never contains `'#'` and the defragmented input is the result plus a run
of trailing slashes), strips ALL trailing `'/'` characters (the result
never ends in `'/'`), and never collapses a URL whose defragmented part
has any non-slash character — in particular a bare scheme://host — to the
empty string. -/
theorem claim_C8_normalizer_behaviour (u : Url) :
    (∃ n, urldefrag u = normalize_url u ++ List.replicate n '/') ∧
    (∀ c ∈ normalize_url u, c ≠ '#') ∧
    (normalize_url u).getLast? ≠ some '/' ∧
    ((∃ c ∈ urldefrag u, c ≠ '/') → normalize_url u ≠ []) := by
  refine ⟨rstripSlash_append_slashes (urldefrag u), ?_, rstripSlash_getLast? _, ?_⟩
  · intro c hc
    exact ne_hash_of_mem_urldefrag (mem_of_mem_rstripSlash hc)
  · rintro ⟨c, hc, hcs⟩ hn
    unfold normalize_url rstripSlash at hn
    rw [List.rdropWhile_eq_nil_iff] at hn
    have := hn c hc
    simp only [beq_iff_eq] at this
    exact hcs this

/-- C8 (witness): the amended theorem applied at "http://a//": the URL has
a non-slash defragmented character, so it does not normalize to the empty
string. -/
theorem claim_C8_witness :
    (∃ c ∈ urldefrag (str "http://a//"), c ≠ '/') ∧
    normalize_url (str "http://a//") ≠ [] :=
  ⟨by decide, (claim_C8_normalizer_behaviour (str "http://a//")).2.2.2 (by decide)⟩

/-- C9: normalization idempotence — `normalize(normalize(u)) ==
normalize(u)` for every input string, fragments and trailing slashes
included. -/
theorem claim_C9_normalize_idempotent (u : Url) :
    normalize_url (normalize_url u) = normalize_url u :=
  normalize_url_idem u

/-- C10: every link returned by `extract_links_from_text` is already
normalized — it is a fixed point of `normalize_url`, so discovered links
enter the frontier in the same normalized-URL space as the visited set
and the ledger. -/
theorem claim_C10_links_normalized (urljoin : Url → Url → Url)
    (hrefs : List Url) (base u : Url)
    (h : u ∈ extract_links_from_text urljoin hrefs base) :
    normalize_url u = u := by
  obtain ⟨href, _, rfl⟩ := List.mem_map.mp h
  exact normalize_url_idem _

/-- C10 (witness): a concrete extracted link is a `normalize_url` fixed
point. -/
theorem claim_C10_witness :
    str "http://a/x" ∈
      extract_links_from_text (fun b h => b ++ h) [str "/x"] (str "http://a") ∧
    normalize_url (str "http://a/x") = str "http://a/x" :=
  ⟨by decide, claim_C10_links_normalized (fun b h => b ++ h) [str "/x"]
    (str "http://a") (str "http://a/x") (by decide)⟩

end PdfUrlScraping
